import Mathlib

/-!
Verification of the parsing core of the go-zfs library (package `zfs`).

The Go source manipulates strings as byte sequences, so raw command output,
diff-line fields and escaped paths are modelled as `List Nat` with every
element a byte value (< 256).  Property tables and zpool lines, whose parsing
is character based (lower-casing, digit tests on ASCII), are modelled with
Lean `String`.  Machine integers are modelled as `Nat`/`Int` with the explicit
bounds that `strconv` enforces.  Fallible Go functions returning `(T, error)`
become `Except String T` (or a structured error where the error's contents
matter to a claim).
-/

/-! ### Byte-level text primitives (src/utils.go, `run`) -/

/-- The ASCII whitespace bytes recognised by `strings.Fields`
(`'\t' '\n' '\v' '\f' '\r' ' '`, the `asciiSpace` fast path of the Go
implementation; multi-byte Unicode space code points are not modelled). -/
def isGoSpace (b : Nat) : Bool :=
  b = 9 || b = 10 || b = 11 || b = 12 || b = 13 || b = 32

/-- Worker for `goFields`: `cur` is the current word accumulated in reverse. -/
def goFieldsAux (cur : List Nat) : List Nat → List (List Nat)
  | [] => if cur.isEmpty then [] else [cur.reverse]
  | b :: bs =>
    if isGoSpace b then
      if cur.isEmpty then goFieldsAux [] bs else cur.reverse :: goFieldsAux [] bs
    else
      goFieldsAux (b :: cur) bs

/-- `strings.Fields`: split a line around runs of whitespace, dropping empty
fields. -/
def goFields (s : List Nat) : List (List Nat) :=
  goFieldsAux [] s

/-- Worker for `splitNl`: `cur` is the current segment accumulated in
reverse. -/
def splitNlAux (cur : List Nat) : List Nat → List (List Nat)
  | [] => [cur.reverse]
  | b :: bs =>
    if b = 10 then cur.reverse :: splitNlAux [] bs else splitNlAux (b :: cur) bs

/-- `strings.Split(s, "\n")`: always returns at least one segment. -/
def splitNl (s : List Nat) : List (List Nat) :=
  splitNlAux [] s

/-- The stdout post-processing of `zfs.run` in buffered mode
(src/utils.go lines 47-57): split the captured stdout on `'\n'`, drop the
last segment (the Go code unconditionally slices `lines[0 : len(lines)-1]`,
commented "last line is always blank"), and tokenize each remaining line
into whitespace-delimited fields.  There is no error path in this code. -/
def processStdout (s : List Nat) : List (List (List Nat)) :=
  ((splitNl s).dropLast).map goFields

/-! ### Octal escape codec (src/utils.go, `unescapeFilepath`) -/

/-- A byte that is an ASCII octal digit `'0'..'7'`. -/
def isOctalDigit (b : Nat) : Bool :=
  48 ≤ b && b ≤ 55

/-- `strconv.ParseUint(s, 8, 8)` on a byte string: nonempty, all octal
digits, value at most 255 (`bitSize 8`); otherwise the syntax / range
errors of `strconv`. -/
def goParseUintOct8 (s : List Nat) : Except String Nat :=
  if s.isEmpty then .error "invalid syntax"
  else if s.all isOctalDigit then
    let v := s.foldl (fun a d => a * 8 + (d - 48)) 0
    if v ≤ 255 then .ok v else .error "value out of range"
  else .error "invalid syntax"

/-- `unescapeFilepath` (src/utils.go lines 149-170): scan byte by byte; a
backslash (92) must be followed by exactly three more bytes which are parsed
as a base-8 byte value and appended; any other byte is appended unchanged.
The Go loop guards the escape case with `llen < i+4` ("too short"); here
that length test is expressed by the list patterns: the first four arms are
the positions with fewer than three bytes after the current one. -/
def unescapeFilepath : List Nat → Except String (List Nat)
  | [] => .ok []
  | [b] =>
    if b = 92 then .error "invalid octal code: too short"
    else (unescapeFilepath []).map (b :: ·)
  | [b, c] =>
    if b = 92 then .error "invalid octal code: too short"
    else (unescapeFilepath [c]).map (b :: ·)
  | [b, c, d] =>
    if b = 92 then .error "invalid octal code: too short"
    else (unescapeFilepath [c, d]).map (b :: ·)
  | b :: d1 :: d2 :: d3 :: rest =>
    if b = 92 then
      match goParseUintOct8 [d1, d2, d3] with
      | .error e => .error ("invalid octal code: " ++ e)
      | .ok v => (unescapeFilepath rest).map (v :: ·)
    else (unescapeFilepath (d1 :: d2 :: d3 :: rest)).map (b :: ·)

/-- Printable 7-bit ASCII in the sense of the `zfs diff` escape function
quoted at src/utils.go lines 138-148: at least a space (32) and strictly
below DEL (127). -/
def printableAscii (b : Nat) : Bool :=
  32 ≤ b && b ≤ 126

/-- The three-octal-digit rendering of a byte value. -/
def octal3 (b : Nat) : List Nat :=
  [48 + b / 64, 48 + (b / 8) % 8, 48 + b % 8]

/-- Modelled from the spec: the encoder of the `zfs diff` escape format is
not part of this repository (it lives in the external `zfs` tool); the spec
states the rule the decoder must invert: a byte outside printable 7-bit
ASCII becomes `\` followed by exactly three octal digits, a printable byte
passes through unescaped. -/
def escapeFilepath (s : List Nat) : List Nat :=
  s.flatMap (fun b => if printableAscii b then [b] else 92 :: octal3 b)

/-! ### Diff line parser (src/utils.go, `parseInodeChange` and friends) -/

/-- A byte that is an ASCII decimal digit `'0'..'9'`. -/
def isDecDigit (b : Nat) : Bool :=
  48 ≤ b && b ≤ 57

/-- Numeric value of a run of ASCII decimal digit bytes. -/
def bytesDecVal (l : List Nat) : Nat :=
  l.foldl (fun a d => a * 10 + (d - 48)) 0

/-- `strconv.Atoi` on a byte string: optional sign, then at least one
decimal digit, value within the signed 64-bit range; otherwise the syntax /
range errors of `strconv`. -/
def goAtoi (s : List Nat) : Except String Int :=
  let (neg, ds) :=
    match s with
    | 43 :: t => (false, t)
    | 45 :: t => (true, t)
    | t => (false, t)
  if ds.isEmpty then .error "invalid syntax"
  else if ds.all isDecDigit then
    let v : Nat := bytesDecVal ds
    if neg then
      if v ≤ 2 ^ 63 then .ok (-(v : Int)) else .error "value out of range"
    else
      if v ≤ 2 ^ 63 - 1 then .ok (v : Int) else .error "value out of range"
  else .error "invalid syntax"

/-- `ChangeType` (Go `int` constants; 0 is the unknown zero value that a
missing map key produces). -/
inductive ChangeType where
  | Unknown
  | Removed
  | Created
  | Modified
  | Renamed
deriving DecidableEq, Repr

/-- `InodeType` (Go `int` constants; 0 is the unknown zero value that a
missing map key produces). -/
inductive InodeType where
  | Unknown
  | BlockDevice
  | CharacterDevice
  | Directory
  | Door
  | NamedPipe
  | SymbolicLink
  | EventPort
  | Socket
  | File
deriving DecidableEq, Repr

/-- `changeTypeMap` lookup: a Go map read returns the zero value
(`Unknown`) for a missing key.  The keys are the single-byte fields
`"-"`, `"+"`, `"M"`, `"R"`. -/
def changeTypeOf (f : List Nat) : ChangeType :=
  if f = [45] then .Removed
  else if f = [43] then .Created
  else if f = [77] then .Modified
  else if f = [82] then .Renamed
  else .Unknown

/-- `inodeTypeMap` lookup: keys `"B" "C" "/" ">" "|" "@" "P" "=" "F"`. -/
def inodeTypeOf (f : List Nat) : InodeType :=
  if f = [66] then .BlockDevice
  else if f = [67] then .CharacterDevice
  else if f = [47] then .Directory
  else if f = [62] then .Door
  else if f = [124] then .NamedPipe
  else if f = [64] then .SymbolicLink
  else if f = [80] then .EventPort
  else if f = [61] then .Socket
  else if f = [70] then .File
  else .Unknown

/-- Attempt of the regular expression `\(([+-]\d+?)\)` at the start of `s`:
`'('`, a sign, then (by the lazy `\d+?` quantifier) the shortest nonempty
digit run followed by `')'`.  Digits stop at the first non-digit byte, so
the attempt succeeds exactly when that first non-digit is `')'`; the
returned capture group is the sign followed by the digits. -/
def refMatchAt (s : List Nat) : Option (List Nat) :=
  match s with
  | 40 :: sign :: rest =>
    if sign = 43 || sign = 45 then
      let digits := rest.takeWhile isDecDigit
      if digits.isEmpty then none
      else
        match rest.drop digits.length with
        | 41 :: _ => some (sign :: digits)
        | _ => none
    else none
  | _ => none

/-- `referenceCountRegex.FindStringSubmatch`: the leftmost position where
the pattern `\(([+-]\d+?)\)` matches, returning its capture group. -/
def findRefGroup : List Nat → Option (List Nat)
  | [] => none
  | b :: bs =>
    match refMatchAt (b :: bs) with
    | some g => some g
    | none => findRefGroup bs

/-- `parseReferenceCount` (src/utils.go lines 194-200): find the submatch
anywhere in the field, then `strconv.Atoi` the captured group. -/
def parseReferenceCount (field : List Nat) : Except String Int :=
  match findRefGroup field with
  | none => .error "regexp does not match"
  | some g => goAtoi g

/-- `InodeChange` (src/utils.go); `Type'` stands for the Go field `Type`,
which is a reserved word in Lean. -/
structure InodeChange where
  Change : ChangeType
  Type' : InodeType
  Path : List Nat
  NewPath : List Nat
  ReferenceCountChange : Int
deriving DecidableEq, Repr

instance : Inhabited InodeChange :=
  ⟨⟨.Unknown, .Unknown, [], [], 0⟩⟩

/-- The field-count check of `parseInodeChange` (the `switch changeType`
at src/utils.go lines 213-226): `some msg` when the count is rejected. -/
def reqCountErr (ct : ChangeType) (llen : Nat) : Option String :=
  match ct with
  | .Renamed =>
    if llen ≠ 4 then some "mismatching number of fields: expect 4" else none
  | .Modified =>
    if llen ≠ 4 ∧ llen ≠ 3 then some "mismatching number of fields: expect 3..4"
    else none
  | _ =>
    if llen ≠ 3 then some "mismatching number of fields: expect 3" else none

/-- The tail of `parseInodeChange` after the field-count check
(src/utils.go lines 228-264): inode-type lookup on field 1, path decoding
on field 2, then the per-change-type handling of the optional field 3
(`rest2` holds the fields after field 2). -/
def parseInodeFields (ct : ChangeType) (f1 f2 : List Nat)
    (rest2 : List (List Nat)) : Except String InodeChange :=
  if inodeTypeOf f1 = .Unknown then .error "unknown inode type"
  else
    match unescapeFilepath f2 with
    | .error e => .error ("failed to parse filename: " ++ e)
    | .ok path =>
      match ct, rest2 with
      | .Renamed, f3 :: _ =>
        match unescapeFilepath f3 with
        | .error e => .error ("failed to parse filename: " ++ e)
        | .ok newPath => .ok ⟨ct, inodeTypeOf f1, path, newPath, 0⟩
      | .Modified, f3 :: _ =>
        match parseReferenceCount f3 with
        | .error e => .error ("failed to parse reference count: " ++ e)
        | .ok rc => .ok ⟨ct, inodeTypeOf f1, path, [], rc⟩
      | _, _ => .ok ⟨ct, inodeTypeOf f1, path, [], 0⟩

/-- `parseInodeChange` (src/utils.go lines 202-264).  The order of checks
follows the source: empty line, change-type lookup, field count, then
`parseInodeFields` for the rest.  The final wildcard arm is unreachable:
the field-count check already guarantees 3 or 4 fields. -/
def parseInodeChange (line : List (List Nat)) : Except String InodeChange :=
  match line with
  | [] => .error "empty line passed"
  | f0 :: rest =>
    if changeTypeOf f0 = .Unknown then .error "unknown change type"
    else
      match reqCountErr (changeTypeOf f0) (rest.length + 1) with
      | some e => .error e
      | none =>
        match rest with
        | f1 :: f2 :: rest2 => parseInodeFields (changeTypeOf f0) f1 f2 rest2
        | _ => .error "unreachable: the field count check admits only 3 or 4"

/-- The error of `parseInodeChanges` (src/utils.go line 278): the Go code
renders `"failed to parse line %d of zfs diff: %w, got: '%s'"` into one
string; the model keeps the rendered ingredients — the zero-based index,
the raw line and the wrapped line-level error — as a structure. -/
structure DiffBatchError where
  idx : Nat
  line : List (List Nat)
  msg : String
deriving DecidableEq, Repr

/-- Worker for `parseInodeChanges`, carrying the running line index. -/
def parseInodeChangesAux (i : Nat) : List (List (List Nat)) →
    Except DiffBatchError (List InodeChange)
  | [] => .ok []
  | l :: ls =>
    match parseInodeChange l with
    | .error e => .error ⟨i, l, e⟩
    | .ok c =>
      match parseInodeChangesAux (i + 1) ls with
      | .error e => .error e
      | .ok cs => .ok (c :: cs)

/-- `parseInodeChanges` (src/utils.go lines 272-283): parse every line in
order, aborting with the first failing line's index and content. -/
def parseInodeChanges (lines : List (List (List Nat))) :
    Except DiffBatchError (List InodeChange) :=
  parseInodeChangesAux 0 lines

/-! ### Property mapper (src/utils.go, `setString`, `setUint`,
`Dataset.parseProps`, `zfs.listByType`) -/

/-- Numeric value of a run of ASCII decimal digit characters. -/
def digitsVal (cs : List Char) : Nat :=
  cs.foldl (fun a c => a * 10 + (c.toNat - 48)) 0

/-- `strconv.ParseUint(s, 10, 64)`: no sign prefix, at least one decimal
digit, value at most `2^64 - 1`; otherwise the syntax / range errors of
`strconv`. -/
def goParseUint64 (s : String) : Except String Nat :=
  let cs := s.toList
  if cs.isEmpty then .error "invalid syntax"
  else if cs.all Char.isDigit then
    if digitsVal cs ≤ 2 ^ 64 - 1 then .ok (digitsVal cs)
    else .error "value out of range"
  else .error "invalid syntax"

/-- `setString` (src/utils.go lines 60-66): the sentinel `"-"` becomes the
empty string, every other value is copied. -/
def setStringF (value : String) : String :=
  if value = "-" then "" else value

/-- `setUint` (src/utils.go lines 68-79): the sentinel `"-"` becomes 0
without parsing, every other value goes through `strconv.ParseUint`. -/
def setUintE (value : String) : Except String Nat :=
  if value = "-" then .ok 0 else goParseUint64 value

/-- The `props` field of `Dataset`: a Go `map[string]string`, modelled as
an association list without duplicate keys (maintained by `pmInsert`), so
that its length is the Go map's `len`. -/
abbrev PropsMap := List (String × String)

/-- Go map assignment `m[k] = v`: overwrite an existing key, otherwise add
the binding. -/
def pmInsert (m : PropsMap) (k v : String) : PropsMap :=
  match m with
  | [] => [(k, v)]
  | (k', v') :: t => if k' = k then (k, v) :: t else (k', v') :: pmInsert t k v

/-- Go map read `m[k]`: the zero value `""` for a missing key (the first
binding wins, matching `pmInsert`, which updates the first occurrence). -/
def pmGet : PropsMap → String → String
  | [], _ => ""
  | (k', v) :: t, k => if k' = k then v else pmGet t k

/-- `Dataset` (struct in the package's main file); `Type'` stands for the
Go field `Type`, which is a reserved word in Lean.  The unexported `z`
back-pointer carries no parsing state and is omitted. -/
structure DatasetRec where
  Name : String
  Origin : String
  Used : Nat
  Avail : Nat
  Mountpoint : String
  Compression : String
  Type' : String
  Written : Nat
  Volsize : Nat
  Logicalused : Nat
  Usedbydataset : Nat
  Quota : Nat
  Referenced : Nat
  props : PropsMap
deriving DecidableEq, Repr

/-- The indexed loop of `Dataset.parseProps` (src/utils.go lines 87-93):
for each header field at index `i`, insert its lower-cased name with the
value at index `i`, or the sentinel `"-"` when the value row is shorter. -/
def buildProps (m : PropsMap) : List String → List String → PropsMap
  | [], _ => m
  | h :: hs, [] => buildProps (pmInsert m h.toLower "-") hs []
  | h :: hs, v :: vs => buildProps (pmInsert m h.toLower v) hs vs

/-- The body of `Dataset.parseProps` once the row count is known to be 2
(src/utils.go lines 87-135): build the property table, reject it when its
size does not exceed `nKnown` (the length of the platform property list
`dsPropList`, which lives in a platform-tagged file that is not among the
sources here; only its length is consulted), then coerce each field in the
source's order, stopping at the first `setUint` failure.  On Solaris the
three trailing counters are skipped. -/
def parsePropsBody (solaris : Bool) (nKnown : Nat) (d : DatasetRec)
    (header vals : List String) : Except String DatasetRec :=
  let props := buildProps d.props header vals
  if props.length ≤ nKnown then
    .error "output does not match what is expected on this platform"
  else
    match setUintE (pmGet props "used") with
    | .error e => .error e
    | .ok used =>
      match setUintE (pmGet props "avail") with
      | .error e => .error e
      | .ok avail =>
        match setUintE (pmGet props "volsize") with
        | .error e => .error e
        | .ok volsize =>
          match setUintE (pmGet props "quota") with
          | .error e => .error e
          | .ok quota =>
            match setUintE (pmGet props "refer") with
            | .error e => .error e
            | .ok referenced =>
              let base : DatasetRec := { d with
                props := props
                Name := setStringF (pmGet props "name")
                Origin := setStringF (pmGet props "origin")
                Used := used
                Avail := avail
                Mountpoint := setStringF (pmGet props "mountpoint")
                Compression := setStringF (pmGet props "compress")
                Type' := setStringF (pmGet props "type")
                Volsize := volsize
                Quota := quota
                Referenced := referenced }
              if solaris then .ok base
              else
                match setUintE (pmGet props "written") with
                | .error e => .error e
                | .ok written =>
                  match setUintE (pmGet props "lused") with
                  | .error e => .error e
                  | .ok lused =>
                    match setUintE (pmGet props "usedds") with
                    | .error e => .error e
                    | .ok usedds =>
                      .ok { base with
                        Written := written
                        Logicalused := lused
                        Usedbydataset := usedds }

/-- `Dataset.parseProps` (src/utils.go lines 81-136): exactly one header
row and one value row are required; any other row count is the Format
error "output does not match what is expected on this platform". -/
def parseProps (solaris : Bool) (nKnown : Nat) (d : DatasetRec)
    (out : List (List String)) : Except String DatasetRec :=
  match out with
  | [header, vals] => parsePropsBody solaris nKnown d header vals
  | _ => .error "output does not match what is expected on this platform"

/-- The fresh `&Dataset{z: z, Name: name, props: make(map[string]string)}`
allocated by `listByType` at a record boundary. -/
def freshDS (name : String) : DatasetRec :=
  ⟨name, "", 0, 0, "", "", "", 0, 0, 0, 0, 0, 0, []⟩

/-- The loop of `zfs.listByType` (src/utils.go lines 302-313).  `name` is
the leading field of the current record, `cur` the dataset under
construction (`none` before the first row, mirroring the Go `nil`
pointer), `acc` the completed datasets, newest first.  A row whose leading
field repeats is fed to `parseProps` on the same dataset; a changed
leading field starts a fresh dataset. -/
def listLoop (solaris : Bool) (nKnown : Nat) (hdr : List String) :
    List (List String) → String → Option DatasetRec → List DatasetRec →
    Except String (List DatasetRec)
  | [], _, cur, acc =>
    .ok ((match cur with | some d => d :: acc | none => acc).reverse)
  | r :: rs, name, cur, acc =>
    let lead := r.headD ""
    if name = lead then
      match cur with
      | some d =>
        match parseProps solaris nKnown d [hdr, r] with
        | .error e => .error e
        | .ok d' => listLoop solaris nKnown hdr rs name (some d') acc
      | none =>
        -- Unreachable for tokenizer output: `strings.Fields` never yields
        -- an empty field, so a leading field never equals the initial
        -- `name == ""`.  (The Go code would dereference a nil pointer.)
        .error "nil dataset"
    else
      match parseProps solaris nKnown (freshDS lead) [hdr, r] with
      | .error e => .error e
      | .ok d' =>
        listLoop solaris nKnown hdr rs lead (some d')
          (match cur with | some d => d :: acc | none => acc)

/-- `zfs.listByType` after a successful `zfs list` invocation
(src/utils.go lines 296-315): an empty row table yields an empty result;
otherwise the first row is the header and the remaining rows are folded by
`listLoop`. -/
def listParse (solaris : Bool) (nKnown : Nat) :
    List (List String) → Except String (List DatasetRec)
  | [] => .ok []
  | hdr :: rows => listLoop solaris nKnown hdr rows "" none []

/-- Worker for `groupHeads`: `current` is the run being accumulated in
reverse, `key` its leading field. -/
def groupHeadsAux (current : List (List String)) (key : String) :
    List (List String) → List (List (List String))
  | [] => [current.reverse]
  | r :: rs =>
    if r.headD "" = key then groupHeadsAux (r :: current) key rs
    else current.reverse :: groupHeadsAux [r] (r.headD "") rs

/-- Group consecutive rows sharing the same leading field into maximal
runs (the record boundaries of `listByType`). -/
def groupHeads : List (List String) → List (List (List String))
  | [] => []
  | r :: rs => groupHeadsAux [r] (r.headD "") rs

/-- Feed the header plus each row of a run, in order, to `parseProps`,
threading the dataset and stopping at the first error. -/
def foldPropsE (solaris : Bool) (nKnown : Nat) (hdr : List String)
    (d : DatasetRec) : List (List String) → Except String DatasetRec
  | [] => .ok d
  | r :: rs =>
    match parseProps solaris nKnown d [hdr, r] with
    | .error e => .error e
    | .ok d' => foldPropsE solaris nKnown hdr d' rs

/-- One record per run: each run is folded by `foldPropsE` from a fresh
dataset named after the run's leading field. -/
def runsParse (solaris : Bool) (nKnown : Nat) (hdr : List String) :
    List (List (List String)) → Except String (List DatasetRec)
  | [] => .ok []
  | run :: more =>
    match foldPropsE solaris nKnown hdr (freshDS ((run.headD []).headD "")) run with
    | .error e => .error e
    | .ok d =>
      match runsParse solaris nKnown hdr more with
      | .error e => .error e
      | .ok ds => .ok (d :: ds)

/-- Specification shape of the listing loop: one record per maximal run of
rows with an equal leading field (in row order), each record obtained by
feeding the header plus each row of the run, in order, to the property
mapper, starting from a fresh dataset named after the run's leading
field. -/
def listSpec (solaris : Bool) (nKnown : Nat) (hdr : List String)
    (rows : List (List String)) : Except String (List DatasetRec) :=
  runsParse solaris nKnown hdr (groupHeads rows)

/-! ### Zpool line parser (src/unnamed/part_000 `Zpool`,
src/utils.go `Zpool.parseLine`) -/

/-- The result of `strconv.ParseFloat(s, 64)`, with the exact decimal
value kept as a rational: the binary rounding to `float64` is not
modelled, and neither are the hexadecimal-float and digit-underscore input
forms, which `zpool` output never contains. -/
inductive GoFloat where
  | num (q : ℚ)
  | inf (neg : Bool)
  | nan
deriving DecidableEq, Repr

/-- Exponent suffix of a decimal float: empty, or `e`/`E`, an optional
sign and at least one digit, consuming the whole remainder. -/
def goParseFloatExp (rest : List Char) (mant : ℚ) : Except String ℚ :=
  match rest with
  | [] => .ok mant
  | e :: r =>
    if e = 'e' ∨ e = 'E' then
      let (eneg, ds) :=
        match r with
        | '+' :: t => (false, t)
        | '-' :: t => (true, t)
        | t => (false, t)
      if ds.isEmpty ∨ ¬ ds.all Char.isDigit then .error "invalid syntax"
      else
        let ex : ℤ := if eneg then -(digitsVal ds : ℤ) else (digitsVal ds : ℤ)
        .ok (mant * (10 : ℚ) ^ ex)
    else .error "invalid syntax"

/-- `strconv.ParseFloat(s, 64)`: optional sign; case-insensitive
`inf`/`infinity`/`nan`; or a decimal mantissa (digits, optionally with a
fractional part, at least one digit overall) with an optional exponent. -/
def goParseFloat (s : String) : Except String GoFloat :=
  let cs := s.toList
  let (neg, cs1) :=
    match cs with
    | '+' :: t => (false, t)
    | '-' :: t => (true, t)
    | t => (false, t)
  let lower := cs1.map Char.toLower
  if lower = "inf".toList ∨ lower = "infinity".toList then .ok (.inf neg)
  else if lower = "nan".toList then .ok .nan
  else
    let ip := cs1.takeWhile Char.isDigit
    let r1 := cs1.drop ip.length
    let (fp, r2) :=
      match r1 with
      | '.' :: r => (r.takeWhile Char.isDigit, r.drop (r.takeWhile Char.isDigit).length)
      | _ => ([], r1)
    if ip.isEmpty ∧ fp.isEmpty then .error "invalid syntax"
    else if r1 ≠ [] ∧ r1.headD ' ' ≠ '.' ∧ ¬ (r1.headD ' ' = 'e' ∨ r1.headD ' ' = 'E')
    then .error "invalid syntax"
    else
      let mant : ℚ := (digitsVal ip : ℚ) + (digitsVal fp : ℚ) / (10 : ℚ) ^ fp.length
      match goParseFloatExp r2 mant with
      | .error e => .error e
      | .ok v => .ok (.num (if neg then -v else v))

/-- `Zpool` (src/unnamed/part_000); `DedupRatioQ` stands for the Go field
`DedupRatio`.  The unexported `z` back-pointer carries no parsing state
and is omitted. -/
structure ZpoolRec where
  Name : String
  Health : String
  Allocated : Nat
  Size : Nat
  Free : Nat
  Fragmentation : Nat
  ReadOnly : Bool
  Freeing : Nat
  Leaked : Nat
  DedupRatioQ : GoFloat
deriving DecidableEq, Repr

/-- The zero-valued `Zpool` that `GetZpool` starts from (its `Name` is then
overwritten before parsing). -/
def zpoolZero : ZpoolRec :=
  ⟨"", "", 0, 0, 0, 0, false, 0, 0, .num 0⟩

/-- `Zpool.parseLine` (src/utils.go lines 327-362): `line[1]` selects the
property, `line[2]` is its raw value; an unrecognized property leaves the
record unchanged with no error.  The fragmentation value is cut at the
first `'%'` (`strings.Index`); the dedup-ratio value unconditionally drops
its final byte (`val[:len(val)-1]`) before `strconv.ParseFloat`.  A line
with fewer than three fields would make the Go code panic on the index
expression; the model returns an error on that dead branch. -/
def zpoolParseLine (z : ZpoolRec) (line : List String) : Except String ZpoolRec :=
  match line with
  | _ :: prop :: val :: _ =>
    if prop = "name" then .ok { z with Name := setStringF val }
    else if prop = "health" then .ok { z with Health := setStringF val }
    else if prop = "allocated" then
      (setUintE val).map (fun v => { z with Allocated := v })
    else if prop = "size" then
      (setUintE val).map (fun v => { z with Size := v })
    else if prop = "free" then
      (setUintE val).map (fun v => { z with Free := v })
    else if prop = "fragmentation" then
      (setUintE (String.mk (val.toList.takeWhile (· ≠ '%')))).map
        (fun v => { z with Fragmentation := v })
    else if prop = "readonly" then .ok { z with ReadOnly := val = "on" }
    else if prop = "freeing" then
      (setUintE val).map (fun v => { z with Freeing := v })
    else if prop = "leaked" then
      (setUintE val).map (fun v => { z with Leaked := v })
    else if prop = "dedupratio" then
      (goParseFloat (String.mk val.toList.dropLast)).map
        (fun q => { z with DedupRatioQ := q })
    else .ok z
  | _ => .error "index out of range"

/-! ### Helper lemmas -/

theorem splitNlAux_cons_nl (cur l : List Nat) :
    splitNlAux cur (10 :: l) = cur.reverse :: splitNlAux [] l := by
  simp [splitNlAux]

theorem splitNlAux_cons_other (b : Nat) (cur l : List Nat) (hb : b ≠ 10) :
    splitNlAux cur (b :: l) = splitNlAux (b :: cur) l := by
  simp [splitNlAux, hb]

theorem splitNlAux_ne_nil (s : List Nat) : ∀ cur, splitNlAux cur s ≠ [] := by
  induction s with
  | nil => intro cur; simp [splitNlAux]
  | cons b bs ih =>
    intro cur
    by_cases hb : b = 10 <;> simp [splitNlAux, hb, ih]

theorem splitNlAux_append_nl (s : List Nat) :
    ∀ cur, splitNlAux cur (s ++ [10]) = splitNlAux cur s ++ [[]] := by
  induction s with
  | nil => intro cur; simp [splitNlAux]
  | cons b bs ih =>
    intro cur
    by_cases hb : b = 10 <;> simp [splitNlAux, hb, ih]

theorem splitNlAux_no_nl (u : List Nat) :
    ∀ cur, 10 ∉ u → splitNlAux cur u = [cur.reverse ++ u] := by
  induction u with
  | nil => intro cur _; simp [splitNlAux]
  | cons b bs ih =>
    intro cur hu
    have hb : b ≠ 10 := fun h => hu (h ▸ List.mem_cons_self b bs)
    have hbs : 10 ∉ bs := fun h => hu (List.mem_cons_of_mem _ h)
    simp [splitNlAux, hb, ih _ hbs]

theorem splitNlAux_mid_nl (t : List Nat) :
    ∀ cur u, 10 ∉ u →
      (splitNlAux cur (t ++ 10 :: u)).dropLast = (splitNlAux cur (t ++ [10])).dropLast := by
  induction t with
  | nil =>
    intro cur u hu
    simp only [List.nil_append, splitNlAux_cons_nl, splitNlAux_no_nl u [] hu]
    simp [splitNlAux]
  | cons b bs ih =>
    intro cur u hu
    by_cases hb : b = 10
    · subst hb
      simp only [List.cons_append, splitNlAux_cons_nl]
      rw [List.dropLast_cons_of_ne_nil (splitNlAux_ne_nil _ _),
        List.dropLast_cons_of_ne_nil (splitNlAux_ne_nil _ _), ih _ u hu]
    · simp only [List.cons_append, splitNlAux_cons_other b _ _ hb]
      exact ih _ u hu

/-! ### C1 -/

/-- C1 counterexample: the captured stdout `"a\nb"` does not end in a
newline, yet `run` returns the row table `[["a"]]` (the trailing partial
line `"b"` is dropped) instead of the Format error the claim requires —
the buffered-mode post-processing has no error path at all. -/
theorem c1_counterexample : processStdout [97, 10, 98] = [[[97]]] := by rfl

/-- C1 (amended): in buffered mode `run` splits the captured stdout on the
newline byte and unconditionally removes the final segment, then tokenizes
every remaining line into whitespace-delimited fields.  When the output
ends in a newline the removed segment is the required trailing empty one;
when it does not, the trailing partial line is silently discarded — no
Format error is ever produced. -/
theorem c1_amended :
    (∀ s : List Nat, processStdout (s ++ [10]) = (splitNl s).map goFields) ∧
    (∀ t u : List Nat, 10 ∉ u →
      processStdout (t ++ 10 :: u) = processStdout (t ++ [10])) ∧
    (∀ u : List Nat, 10 ∉ u → processStdout u = []) := by
  refine ⟨fun s => ?_, fun t u hu => ?_, fun u hu => ?_⟩
  · unfold processStdout splitNl
    rw [splitNlAux_append_nl, List.dropLast_concat]
  · unfold processStdout splitNl
    rw [splitNlAux_mid_nl t [] u hu]
  · unfold processStdout splitNl
    rw [splitNlAux_no_nl u [] hu]
    rfl

theorem c1_amended_witness :
    processStdout [97, 10, 98] = processStdout [97, 10] := by
  exact c1_amended.2.1 [97] [98] (by decide)

/-! ### C2 / C3 helper lemmas -/

/-- The numeric value of a three-octal-digit window, as the Go parse
computes it. -/
def oct3Val (d1 d2 d3 : Nat) : Nat :=
  (d1 - 48) * 64 + (d2 - 48) * 8 + (d3 - 48)

theorem goParseUintOct8_three (d1 d2 d3 : Nat) (h1 : isOctalDigit d1 = true)
    (h2 : isOctalDigit d2 = true) (h3 : isOctalDigit d3 = true) :
    goParseUintOct8 [d1, d2, d3] =
      if oct3Val d1 d2 d3 ≤ 255 then .ok (oct3Val d1 d2 d3)
      else .error "value out of range" := by
  have he : ((0 * 8 + (d1 - 48)) * 8 + (d2 - 48)) * 8 + (d3 - 48) = oct3Val d1 d2 d3 := by
    unfold oct3Val
    generalize d1 - 48 = a
    generalize d2 - 48 = b
    generalize d3 - 48 = c
    ring
  simp only [goParseUintOct8, List.isEmpty_cons, List.all_cons, List.all_nil,
    h1, h2, h3, Bool.and_self, Bool.and_true, Bool.true_and, List.foldl, he]
  rfl

theorem goParseUintOct8_octal3 (b : Nat) (hb : b < 256) :
    goParseUintOct8 (octal3 b) = .ok b := by
  have h1 : isOctalDigit (48 + b / 64) = true := by
    simp only [isOctalDigit, Bool.and_eq_true, decide_eq_true_eq]
    omega
  have h2 : isOctalDigit (48 + b / 8 % 8) = true := by
    simp only [isOctalDigit, Bool.and_eq_true, decide_eq_true_eq]
    omega
  have h3 : isOctalDigit (48 + b % 8) = true := by
    simp only [isOctalDigit, Bool.and_eq_true, decide_eq_true_eq]
    omega
  have hv : oct3Val (48 + b / 64) (48 + b / 8 % 8) (48 + b % 8) = b := by
    unfold oct3Val
    omega
  rw [show octal3 b = [48 + b / 64, 48 + b / 8 % 8, 48 + b % 8] from rfl,
    goParseUintOct8_three _ _ _ h1 h2 h3, hv, if_pos (by omega : b ≤ 255)]

theorem unescape_cons_other (b : Nat) (rest : List Nat) (hb : b ≠ 92) :
    unescapeFilepath (b :: rest) = (unescapeFilepath rest).map (b :: ·) := by
  match rest with
  | [] => simp only [unescapeFilepath, if_neg hb]
  | [c] => simp only [unescapeFilepath, if_neg hb]
  | [c, d] => simp only [unescapeFilepath, if_neg hb]
  | d1 :: d2 :: d3 :: r => simp only [unescapeFilepath, if_neg hb]

theorem unescape_cons_too_short (bs : List Nat) (hlen : bs.length < 3) :
    unescapeFilepath (92 :: bs) = .error "invalid octal code: too short" := by
  match bs with
  | [] => simp [unescapeFilepath]
  | [c] => simp [unescapeFilepath]
  | [c, d] => simp [unescapeFilepath]
  | d1 :: d2 :: d3 :: r => simp only [List.length_cons] at hlen; omega

theorem unescape_cons_escape (b : Nat) (rest : List Nat) (hb : b < 256) :
    unescapeFilepath (92 :: octal3 b ++ rest) = (unescapeFilepath rest).map (b :: ·) := by
  have h := goParseUintOct8_octal3 b hb
  rw [show (92 :: octal3 b ++ rest : List Nat)
      = 92 :: (48 + b / 64) :: (48 + b / 8 % 8) :: (48 + b % 8) :: rest from rfl]
  simp only [unescapeFilepath, if_pos rfl]
  rw [show ([48 + b / 64, 48 + b / 8 % 8, 48 + b % 8] : List Nat) = octal3 b from rfl, h]
  rw [if_pos trivial]

/-! ### C2 -/

/-- C2 counterexample: the backslash byte (92) is itself printable 7-bit
ASCII, so the stated encoding rule passes it through unescaped; decoding
then treats it as the start of an escape and fails, so encode-then-decode
does not restore the one-byte sequence `[92]`. -/
theorem c2_counterexample :
    escapeFilepath [92] = [92] ∧
    unescapeFilepath (escapeFilepath [92]) = .error "invalid octal code: too short" := by
  exact ⟨by rfl, by rfl⟩

/-- C2 (amended): decoding inverts the stated encoding rule away from the
backslash byte: for every byte value outside printable 7-bit ASCII,
decoding `\` followed by its three-octal-digit rendering yields exactly
that byte; every printable 7-bit ASCII byte other than the backslash
passes through unchanged; and encode-then-decode restores every byte
sequence that contains no backslash byte (a literal backslash is encoded
unescaped and then misread as an escape introducer). -/
theorem c2_amended :
    (∀ b : Nat, b < 256 → printableAscii b = false →
      unescapeFilepath (92 :: octal3 b) = .ok [b]) ∧
    (∀ b : Nat, printableAscii b = true → b ≠ 92 →
      unescapeFilepath [b] = .ok [b]) ∧
    (∀ s : List Nat, (∀ b ∈ s, b < 256) → 92 ∉ s →
      unescapeFilepath (escapeFilepath s) = .ok s) := by
  refine ⟨fun b hb _ => ?_, fun b _ hb92 => ?_, fun s hbound hnb => ?_⟩
  · have := unescape_cons_escape b [] hb
    simpa using this
  · rw [unescape_cons_other b [] hb92]
    rfl
  · induction s with
    | nil => rfl
    | cons b bs ih =>
      have hb : b < 256 := hbound b (List.mem_cons_self b bs)
      have hb92 : b ≠ 92 := fun h => hnb (h ▸ List.mem_cons_self b bs)
      have hbs : 92 ∉ bs := fun h => hnb (List.mem_cons_of_mem _ h)
      have hbound' : ∀ x ∈ bs, x < 256 := fun x hx => hbound x (List.mem_cons_of_mem _ hx)
      have ihr := ih hbound' hbs
      by_cases hp : printableAscii b
      · have : escapeFilepath (b :: bs) = b :: escapeFilepath bs := by
          simp [escapeFilepath, hp]
        rw [this, unescape_cons_other b _ hb92, ihr]
        rfl
      · have : escapeFilepath (b :: bs) = 92 :: octal3 b ++ escapeFilepath bs := by
          simp [escapeFilepath, hp]
        rw [this, unescape_cons_escape b _ hb, ihr]
        rfl

theorem c2_amended_witness :
    ((7 : Nat) < 256 ∧ printableAscii 7 = false) ∧
    unescapeFilepath (92 :: octal3 7) = .ok [7] := by
  exact ⟨⟨by decide, by decide⟩, c2_amended.1 7 (by decide) (by decide)⟩

/-! ### C3 -/

theorem goParseUintOct8_bad (d1 d2 d3 : Nat)
    (h : ¬(isOctalDigit d1 = true ∧ isOctalDigit d2 = true ∧ isOctalDigit d3 = true)) :
    goParseUintOct8 [d1, d2, d3] = .error "invalid syntax" := by
  have hall : ([d1, d2, d3].all isOctalDigit) = false := by
    cases h1 : isOctalDigit d1 <;> cases h2 : isOctalDigit d2 <;>
      cases h3 : isOctalDigit d3 <;> simp_all
  simp [goParseUintOct8, hall]

theorem unescape_escape_arm (d1 d2 d3 : Nat) (rest : List Nat) :
    unescapeFilepath (92 :: d1 :: d2 :: d3 :: rest) =
      match goParseUintOct8 [d1, d2, d3] with
      | .error e => .error ("invalid octal code: " ++ e)
      | .ok v => (unescapeFilepath rest).map (v :: ·) := by
  simp only [unescapeFilepath, if_pos rfl]
  rw [if_pos trivial]

/-- C3 counterexample: in `"\777"` the backslash is followed by three octal
digits, yet decoding fails — `strconv.ParseUint(_, 8, 8)` rejects the value
511 as out of the 8-bit range, an error case the claim does not admit
(its error cases are only "too short" and "non-octal digit"). -/
theorem c3_counterexample :
    (isOctalDigit 55 = true) ∧
    unescapeFilepath [92, 55, 55, 55] = .error "invalid octal code: value out of range" := by
  exact ⟨by decide, by rfl⟩

/-- C3 (amended): the decoder scans byte-by-byte; a backslash must be
followed by exactly three bytes, which — when they are octal digits whose
three-digit value fits in one byte — are appended as that byte value; any
non-backslash byte is appended unchanged; fewer than three remaining bytes
give the FormatError "invalid octal code: too short"; a non-octal digit in
the window gives a FormatError wrapping the numeric syntax failure; and
(the correction) three octal digits whose value exceeds 255 give a
FormatError wrapping the numeric range failure. -/
theorem c3_amended :
    (∀ b rest, b ≠ 92 →
      unescapeFilepath (b :: rest) = (unescapeFilepath rest).map (b :: ·)) ∧
    (∀ bs : List Nat, bs.length < 3 →
      unescapeFilepath (92 :: bs) = .error "invalid octal code: too short") ∧
    (∀ d1 d2 d3 rest, isOctalDigit d1 = true → isOctalDigit d2 = true →
      isOctalDigit d3 = true → oct3Val d1 d2 d3 ≤ 255 →
      unescapeFilepath (92 :: d1 :: d2 :: d3 :: rest) =
        (unescapeFilepath rest).map (oct3Val d1 d2 d3 :: ·)) ∧
    (∀ d1 d2 d3 rest,
      ¬(isOctalDigit d1 = true ∧ isOctalDigit d2 = true ∧ isOctalDigit d3 = true) →
      unescapeFilepath (92 :: d1 :: d2 :: d3 :: rest) =
        .error "invalid octal code: invalid syntax") ∧
    (∀ d1 d2 d3 rest, isOctalDigit d1 = true → isOctalDigit d2 = true →
      isOctalDigit d3 = true → 255 < oct3Val d1 d2 d3 →
      unescapeFilepath (92 :: d1 :: d2 :: d3 :: rest) =
        .error "invalid octal code: value out of range") := by
  refine ⟨unescape_cons_other, unescape_cons_too_short,
    fun d1 d2 d3 rest h1 h2 h3 hle => ?_,
    fun d1 d2 d3 rest h => ?_,
    fun d1 d2 d3 rest h1 h2 h3 hgt => ?_⟩
  · rw [unescape_escape_arm, goParseUintOct8_three _ _ _ h1 h2 h3, if_pos hle]
  · rw [unescape_escape_arm, goParseUintOct8_bad _ _ _ h]
    rfl
  · rw [unescape_escape_arm, goParseUintOct8_three _ _ _ h1 h2 h3,
      if_neg (by omega)]
    rfl

theorem c3_amended_witness :
    (([49, 50] : List Nat).length < 3) ∧
    unescapeFilepath [92, 49, 50] = .error "invalid octal code: too short" := by
  exact ⟨by decide, c3_amended.2.1 [49, 50] (by decide)⟩

/-! ### C4 -/

theorem takeWhile_append_all {α : Type} (p : α → Bool) (l r : List α)
    (hl : ∀ x ∈ l, p x = true) :
    (l ++ r).takeWhile p = l ++ r.takeWhile p := by
  induction l with
  | nil => simp
  | cons a l ih =>
    have ha := hl a (List.mem_cons_self a l)
    simp only [List.cons_append, List.takeWhile_cons, ha, if_true]
    rw [ih (fun x hx => hl x (List.mem_cons_of_mem _ hx))]

theorem refMatchAt_hit (sign : Nat) (digits post : List Nat)
    (hsign : sign = 43 ∨ sign = 45) (hne : digits ≠ [])
    (hd : ∀ d ∈ digits, isDecDigit d = true) :
    refMatchAt (40 :: sign :: (digits ++ 41 :: post)) = some (sign :: digits) := by
  have htw : (digits ++ 41 :: post).takeWhile isDecDigit = digits := by
    rw [takeWhile_append_all _ _ _ hd]
    simp [List.takeWhile_cons, isDecDigit]
  have hsb : (sign = 43 || sign = 45) = true := by
    rcases hsign with h | h <;> simp [h]
  have hie : digits.isEmpty = false := by
    cases digits with
    | nil => exact absurd rfl hne
    | cons a l => rfl
  have hdrop : (digits ++ 41 :: post).drop digits.length = 41 :: post :=
    List.drop_left _ _
  simp only [refMatchAt, hsb, if_true, htw, hie, Bool.false_eq_true, if_false, hdrop]

theorem refMatchAt_not40 (b : Nat) (bs : List Nat) (hb : b ≠ 40) :
    refMatchAt (b :: bs) = none := by
  unfold refMatchAt
  split
  · rename_i sign rest heq
    injection heq with h1 h2
    exact absurd h1 hb
  · rfl

theorem findRefGroup_cons_of_none (b : Nat) (bs : List Nat)
    (h : refMatchAt (b :: bs) = none) : findRefGroup (b :: bs) = findRefGroup bs := by
  simp [findRefGroup, h]

theorem findRefGroup_cons_of_some (b : Nat) (bs g : List Nat)
    (h : refMatchAt (b :: bs) = some g) : findRefGroup (b :: bs) = some g := by
  simp [findRefGroup, h]

theorem findRefGroup_skip (pre s : List Nat) (hpre : ∀ b ∈ pre, b ≠ 40) :
    findRefGroup (pre ++ s) = findRefGroup s := by
  induction pre with
  | nil => rfl
  | cons b pr ih =>
    have hb := hpre b (List.mem_cons_self b pr)
    rw [List.cons_append, findRefGroup_cons_of_none _ _ (refMatchAt_not40 _ _ hb),
      ih (fun x hx => hpre x (List.mem_cons_of_mem _ hx))]

theorem goAtoi_plus (digits : List Nat) (hne : digits ≠ [])
    (hd : ∀ d ∈ digits, isDecDigit d = true) (hv : bytesDecVal digits ≤ 2 ^ 63 - 1) :
    goAtoi (43 :: digits) = .ok (bytesDecVal digits) := by
  have hie : digits.isEmpty = false := by
    cases digits with
    | nil => exact absurd rfl hne
    | cons a l => rfl
  have hall : digits.all isDecDigit = true := List.all_eq_true.mpr hd
  simp [goAtoi, hie, hall, hv]
  omega

theorem goAtoi_minus (digits : List Nat) (hne : digits ≠ [])
    (hd : ∀ d ∈ digits, isDecDigit d = true) (hv : bytesDecVal digits ≤ 2 ^ 63) :
    goAtoi (45 :: digits) = .ok (-(bytesDecVal digits : Int)) := by
  have hie : digits.isEmpty = false := by
    cases digits with
    | nil => exact absurd rfl hne
    | cons a l => rfl
  have hall : digits.all isDecDigit = true := List.all_eq_true.mpr hd
  simp [goAtoi, hie, hall, hv]
  omega

theorem parseReferenceCount_found (pre : List Nat) (sign : Nat) (digits post : List Nat)
    (hpre : ∀ b ∈ pre, b ≠ 40) (hsign : sign = 43 ∨ sign = 45) (hne : digits ≠ [])
    (hd : ∀ d ∈ digits, isDecDigit d = true) :
    parseReferenceCount (pre ++ 40 :: sign :: (digits ++ 41 :: post)) =
      goAtoi (sign :: digits) := by
  unfold parseReferenceCount
  rw [findRefGroup_skip _ _ hpre,
    findRefGroup_cons_of_some _ _ _ (refMatchAt_hit sign digits post hsign hne hd)]

/-! ### C4 -/

/-- C4 counterexample: field 3 `"x(+1)y"` is not of the exact literal shape
`(+N)`, yet the unanchored regular expression finds the embedded group and
`parseLine` succeeds with ReferenceCountChange 1 instead of returning a
FormatError. -/
theorem c4_counterexample :
    parseInodeChange [[77], [47], [112], [120, 40, 43, 49, 41, 121]] =
      .ok ⟨.Modified, .Directory, [112], [], 1⟩ := by
  rfl

/-- C4 (amended): for a Modified diff line with 4 fields, the parser
searches field 3 for the leftmost substring of shape `(+N)` or `(-N)`
(N decimal digits, here with the parsed value within the signed 64-bit
range) — surrounding characters do not matter — and returns the signed
integer N as ReferenceCountChange; a FormatError arises when no such
substring occurs anywhere in the field (or when N overflows `int`). -/
theorem c4_amended :
    (∀ (pre : List Nat) (sign : Nat) (digits post : List Nat),
      (∀ b ∈ pre, b ≠ 40) → (sign = 43 ∨ sign = 45) → digits ≠ [] →
      (∀ d ∈ digits, isDecDigit d = true) → bytesDecVal digits ≤ 2 ^ 63 - 1 →
      parseReferenceCount (pre ++ 40 :: sign :: (digits ++ 41 :: post)) =
        .ok (if sign = 45 then -(bytesDecVal digits : Int)
             else (bytesDecVal digits : Int))) ∧
    (∀ field, findRefGroup field = none →
      parseReferenceCount field = .error "regexp does not match") ∧
    (∀ field v, parseReferenceCount field = .ok v →
      parseInodeChange [[77], [47], [112], field] =
        .ok ⟨.Modified, .Directory, [112], [], v⟩) := by
  refine ⟨fun pre sign digits post hpre hsign hne hd hv => ?_,
    fun field h => ?_, fun field v h => ?_⟩
  · rw [parseReferenceCount_found pre sign digits post hpre hsign hne hd]
    rcases hsign with h43 | h45
    · subst h43
      rw [if_neg (by decide), goAtoi_plus digits hne hd hv]
    · subst h45
      rw [if_pos rfl, goAtoi_minus digits hne hd (by omega)]
  · unfold parseReferenceCount
    rw [h]
  · have harm : parseInodeChange [[77], [47], [112], field] =
        match parseReferenceCount field with
        | .error e => .error ("failed to parse reference count: " ++ e)
        | .ok rc => .ok ⟨.Modified, .Directory, [112], [], rc⟩ := rfl
    rw [harm, h]

theorem c4_amended_witness :
    parseReferenceCount ([120] ++ 40 :: 43 :: ([49] ++ 41 :: [121])) = .ok 1 := by
  have := c4_amended.1 [120] 43 [49] [121] (by decide) (Or.inl rfl)
    (by decide) (by decide) (by decide)
  simpa using this

/-! ### C5 -/

theorem parseInodeFields_ok_inode (ct : ChangeType) (f1 f2 : List Nat)
    (rest2 : List (List Nat)) (c : InodeChange)
    (h : parseInodeFields ct f1 f2 rest2 = .ok c) : inodeTypeOf f1 ≠ .Unknown := by
  intro hit
  unfold parseInodeFields at h
  rw [if_pos hit] at h
  simp at h

theorem parseInodeFields_cases (ct : ChangeType) (f1 f2 : List Nat)
    (rest2 : List (List Nat)) (c : InodeChange)
    (h : parseInodeFields ct f1 f2 rest2 = .ok c) :
    c.Change = ct ∧
    ((ct = .Renamed ∧ c.ReferenceCountChange = 0) ∨
     (ct = .Modified ∧ rest2 ≠ [] ∧ c.NewPath = []) ∨
     (c.NewPath = [] ∧ c.ReferenceCountChange = 0)) := by
  unfold parseInodeFields at h
  split at h
  · simp at h
  · split at h
    · simp at h
    · rename_i path hpath
      split at h
      · split at h
        · simp at h
        · rename_i np hnp
          have hc := Except.ok.inj h
          subst hc
          exact ⟨rfl, Or.inl ⟨rfl, rfl⟩⟩
      · split at h
        · simp at h
        · rename_i rc hrc
          have hc := Except.ok.inj h
          subst hc
          exact ⟨rfl, Or.inr (Or.inl ⟨rfl, by simp, rfl⟩)⟩
      · have hc := Except.ok.inj h
        subst hc
        exact ⟨rfl, Or.inr (Or.inr ⟨rfl, rfl⟩)⟩

theorem parseInodeChange_ok_shape (line : List (List Nat)) (c : InodeChange)
    (h : parseInodeChange line = .ok c) :
    ∃ f0 f1 f2 rest2, line = f0 :: f1 :: f2 :: rest2 ∧
      changeTypeOf f0 ≠ .Unknown ∧ inodeTypeOf f1 ≠ .Unknown ∧
      reqCountErr (changeTypeOf f0) line.length = none := by
  unfold parseInodeChange at h
  split at h
  · simp at h
  · rename_i f0 rest
    split at h
    · simp at h
    · rename_i hct
      split at h
      · simp at h
      · rename_i hreq
        split at h
        · rename_i f1 f2 rest2
          exact ⟨f0, f1, f2, rest2, rfl, hct,
            parseInodeFields_ok_inode _ _ _ _ _ h, by simpa using hreq⟩
        · simp at h

/-- C5: for every diff line, `parseLine` returns a FormatError (and hence
no InodeChange) whenever field 0 is not one of the four change codes,
whenever field 1 is not one of the nine inode-type codes, or whenever the
field count mismatches the change type's requirement (Renamed: exactly 4;
Modified: 3 or 4; Removed and Created: exactly 3). -/
theorem c5_parse_line_errors (line : List (List Nat))
    (h :
      changeTypeOf (line.getD 0 []) = .Unknown ∨
      inodeTypeOf (line.getD 1 []) = .Unknown ∨
      (changeTypeOf (line.getD 0 []) = .Renamed ∧ line.length ≠ 4) ∨
      (changeTypeOf (line.getD 0 []) = .Modified ∧ line.length ≠ 3 ∧ line.length ≠ 4) ∨
      ((changeTypeOf (line.getD 0 []) = .Removed ∨
        changeTypeOf (line.getD 0 []) = .Created) ∧ line.length ≠ 3)) :
    (parseInodeChange line).isOk = false := by
  cases hok : parseInodeChange line with
  | error e => rfl
  | ok c =>
  exfalso
  obtain ⟨f0, f1, f2, rest, hline, hct, hit, hreq⟩ := parseInodeChange_ok_shape line c hok
  subst hline
  simp only [List.getD_cons_zero, List.getD_cons_succ] at h
  rcases h with h | h | ⟨h1, h2⟩ | ⟨h1, h2, h3⟩ | ⟨h1, h2⟩
  · exact hct h
  · exact hit h
  · rw [h1] at hreq
    simp only [reqCountErr] at hreq
    split at hreq
    · simp at hreq
    · rename_i hcond
      exact hcond h2
  · rw [h1] at hreq
    simp only [reqCountErr] at hreq
    split at hreq
    · simp at hreq
    · rename_i hcond
      exact hcond ⟨h3, h2⟩
  · rcases h1 with h1 | h1 <;>
      · rw [h1] at hreq
        simp only [reqCountErr] at hreq
        split at hreq
        · simp at hreq
        · rename_i hcond
          exact hcond h2

theorem c5_parse_line_errors_witness :
    (parseInodeChange [[88], [47], [112]]).isOk = false := by
  exact c5_parse_line_errors [[88], [47], [112]] (Or.inl (by decide))

/-! ### C10 -/

theorem reqCountErr_modified_len (llen : Nat)
    (h : reqCountErr .Modified llen = none) : llen = 3 ∨ llen = 4 := by
  simp only [reqCountErr] at h
  split at h
  · simp at h
  · rename_i hcond
    omega

/-- C10: every InodeChange produced by a successful `parseLine` satisfies
the invariant: NewPath is nonempty only for Renamed lines, and
ReferenceCountChange is nonzero only for Modified lines that carried the
optional 4th reference-count field; in all other cases NewPath is empty
and ReferenceCountChange is zero. -/
theorem c10_inode_change_invariant (line : List (List Nat)) (c : InodeChange)
    (h : parseInodeChange line = .ok c) :
    (c.NewPath ≠ [] → c.Change = .Renamed) ∧
    (c.ReferenceCountChange ≠ 0 → c.Change = .Modified ∧ line.length = 4) ∧
    (c.Change ≠ .Renamed → c.NewPath = []) ∧
    ((c.Change ≠ .Modified ∨ line.length = 3) → c.ReferenceCountChange = 0) := by
  unfold parseInodeChange at h
  split at h
  · simp at h
  · rename_i f0 rest
    split at h
    · simp at h
    · rename_i hct
      split at h
      · simp at h
      · rename_i hreq
        split at h
        · rename_i f1 f2 rest2
          obtain ⟨hchange, hcases⟩ := parseInodeFields_cases _ _ _ _ _ h
          rcases hcases with ⟨hre, hrc0⟩ | ⟨hmo, hne, hnp⟩ | ⟨hnp, hrc0⟩
          · rw [hre] at hchange
            exact ⟨fun _ => hchange, fun hrc => absurd hrc0 hrc,
              fun hx => (hx hchange).elim, fun _ => hrc0⟩
          · rw [hmo] at hchange
            rw [hmo] at hreq
            have h34 := reqCountErr_modified_len _ hreq
            have hlen4 : (f0 :: f1 :: f2 :: rest2).length = 4 := by
              have : rest2 ≠ [] := hne
              have : 1 ≤ rest2.length := by
                cases rest2 with
                | nil => exact absurd rfl this
                | cons a l => simp
              simp only [List.length_cons] at h34 ⊢
              omega
            refine ⟨fun hx => (hx hnp).elim, fun _ => ⟨hchange, hlen4⟩,
              fun _ => hnp, fun hd => ?_⟩
            rcases hd with hd | hd
            · exact (hd hchange).elim
            · rw [hlen4] at hd
              exact absurd hd (by decide)
          · exact ⟨fun hx => (hx hnp).elim, fun hrc => absurd hrc0 hrc,
              fun _ => hnp, fun _ => hrc0⟩
        · simp at h

theorem c10_inode_change_invariant_witness :
    (([[77], [47], [112]] : List (List Nat)).length = 3) ∧
    ((⟨.Modified, .Directory, [112], [], 0⟩ : InodeChange).ReferenceCountChange = 0) := by
  refine ⟨by decide, ?_⟩
  exact (c10_inode_change_invariant [[77], [47], [112]]
    ⟨.Modified, .Directory, [112], [], 0⟩ (by rfl)).2.2.2 (Or.inr (by decide))

/-! ### C6 -/

theorem parseInodeChangesAux_cons (i : Nat) (l : List (List Nat))
    (ls : List (List (List Nat))) :
    parseInodeChangesAux i (l :: ls) =
      match parseInodeChange l with
      | .error e => .error ⟨i, l, e⟩
      | .ok c =>
        match parseInodeChangesAux (i + 1) ls with
        | .error e => .error e
        | .ok cs => .ok (c :: cs) := rfl

theorem parseInodeChangesAux_spec (ls : List (List (List Nat))) : ∀ i : Nat,
    (∀ cs, parseInodeChangesAux i ls = .ok cs → cs.length = ls.length ∧
      ∀ k, k < ls.length → parseInodeChange (ls.getD k []) = .ok (cs.getD k default)) ∧
    (∀ e, parseInodeChangesAux i ls = .error e →
      i ≤ e.idx ∧ e.idx - i < ls.length ∧ ls.getD (e.idx - i) [] = e.line ∧
      parseInodeChange e.line = .error e.msg ∧
      ∀ j, j < e.idx - i → ∃ c, parseInodeChange (ls.getD j []) = .ok c) := by
  induction ls with
  | nil =>
    intro i
    constructor
    · intro cs hcs
      have hcs' := Except.ok.inj hcs
      subst hcs'
      exact ⟨rfl, fun k hk => absurd hk (by simp)⟩
    · intro e he
      simp [parseInodeChangesAux] at he
  | cons l ls ih =>
    intro i
    constructor
    · intro cs hcs
      rw [parseInodeChangesAux_cons] at hcs
      split at hcs
      · simp at hcs
      · rename_i c hp
        split at hcs
        · simp at hcs
        · rename_i cs' hr
          have hcs' := Except.ok.inj hcs
          subst hcs'
          obtain ⟨hlen, hall⟩ := (ih (i + 1)).1 cs' hr
          refine ⟨by simp [hlen], fun k hk => ?_⟩
          cases k with
          | zero => simpa using hp
          | succ k =>
            simp only [List.getD_cons_succ]
            exact hall k (by simpa using hk)
    · intro e he
      rw [parseInodeChangesAux_cons] at he
      split at he
      · rename_i msg hp
        have he' := Except.error.inj he
        subst he'
        refine ⟨le_refl i, by simp, by simp, hp, fun j hj => ?_⟩
        simp at hj
      · rename_i c hp
        split at he
        · rename_i e' hr
          have he' := Except.error.inj he
          rw [he'] at hr
          obtain ⟨hi, hlt, hget, hperr, hfirst⟩ := (ih (i + 1)).2 e hr
          have hsub : e.idx - i = (e.idx - (i + 1)) + 1 := by omega
          refine ⟨by omega, ?_, ?_, hperr, fun j hj => ?_⟩
          · simp only [List.length_cons]
            omega
          · rw [hsub, List.getD_cons_succ]
            exact hget
          · cases j with
            | zero => exact ⟨c, by simpa using hp⟩
            | succ j =>
              have hj' : j < e.idx - (i + 1) := by omega
              simpa [List.getD_cons_succ] using hfirst j hj'
        · simp at he

/-- C6: for every list of diff lines, the batch parser either returns one
InodeChange per input line, in input order (position `k` of the output is
the parse of line `k`), or aborts on the first failing line and returns
only an error carrying that line's zero-based index, its raw content, and
the line-level failure; every line before the failing one parses
successfully, and no output sequence accompanies an error. -/
theorem c6_batch_parse (lines : List (List (List Nat))) :
    (∀ cs, parseInodeChanges lines = .ok cs → cs.length = lines.length ∧
      ∀ k, k < lines.length →
        parseInodeChange (lines.getD k []) = .ok (cs.getD k default)) ∧
    (∀ e, parseInodeChanges lines = .error e →
      e.idx < lines.length ∧ lines.getD e.idx [] = e.line ∧
      parseInodeChange e.line = .error e.msg ∧
      ∀ j, j < e.idx → ∃ c, parseInodeChange (lines.getD j []) = .ok c) := by
  have h := parseInodeChangesAux_spec lines 0
  constructor
  · exact h.1
  · intro e he
    obtain ⟨h0, hlt, hget, hperr, hfirst⟩ := h.2 e he
    rw [Nat.sub_zero] at hlt hget
    exact ⟨hlt, hget, hperr, fun j hj => hfirst j (by omega)⟩

theorem c6_batch_parse_witness :
    (1 : Nat) < 2 ∧
    ([[[77], [47], [112]], []] : List (List (List Nat))).getD 1 [] = [] ∧
    parseInodeChange ([] : List (List Nat)) = .error "empty line passed" := by
  have h := (c6_batch_parse [[[77], [47], [112]], []]).2
    ⟨1, [], "empty line passed"⟩ (by rfl)
  exact ⟨h.1, h.2.1, h.2.2.1⟩

/-! ### C7 -/

theorem pmGet_insert_self (m : PropsMap) (k v : String) :
    pmGet (pmInsert m k v) k = v := by
  induction m with
  | nil => simp [pmInsert, pmGet]
  | cons p t ih =>
    by_cases hk : p.1 = k
    · simp [pmInsert, hk, pmGet]
    · simp [pmInsert, hk, pmGet, ih]

theorem pmGet_insert_ne (m : PropsMap) (k v k' : String) (h : k ≠ k') :
    pmGet (pmInsert m k v) k' = pmGet m k' := by
  induction m with
  | nil => simp [pmInsert, pmGet, h]
  | cons p t ih =>
    by_cases hk : p.1 = k
    · simp [pmInsert, hk, pmGet, h]
    · simp [pmInsert, hk, pmGet, ih]

theorem buildProps_get_notin (hs : List String) :
    ∀ (m : PropsMap) (vs : List String) (k : String),
    (∀ x ∈ hs, x.toLower ≠ k) →
    pmGet (buildProps m hs vs) k = pmGet m k := by
  induction hs with
  | nil => intro m vs k _; rfl
  | cons h hs ih =>
    intro m vs k hk
    have hh := hk h (List.mem_cons_self h hs)
    have hk' : ∀ x ∈ hs, x.toLower ≠ k := fun x hx => hk x (List.mem_cons_of_mem _ hx)
    cases vs with
    | nil =>
      show pmGet (buildProps (pmInsert m h.toLower "-") hs []) k = pmGet m k
      rw [ih _ _ _ hk', pmGet_insert_ne _ _ _ _ hh]
    | cons v vs =>
      show pmGet (buildProps (pmInsert m h.toLower v) hs vs) k = pmGet m k
      rw [ih _ _ _ hk', pmGet_insert_ne _ _ _ _ hh]

theorem buildProps_get_idx (hs : List String) :
    ∀ (m : PropsMap) (vs : List String) (i : Nat),
    i < hs.length → (hs.map String.toLower).Nodup →
    pmGet (buildProps m hs vs) ((hs.getD i "").toLower) =
      (if i < vs.length then vs.getD i "" else "-") := by
  induction hs with
  | nil =>
    intro m vs i hi _
    simp at hi
  | cons h hs ih =>
    intro m vs i hi hnd
    rw [List.map_cons, List.nodup_cons] at hnd
    obtain ⟨hnotin, hnd'⟩ := hnd
    have hne : ∀ x ∈ hs, x.toLower ≠ h.toLower := by
      intro x hx hEq
      exact hnotin (hEq ▸ List.mem_map_of_mem String.toLower hx)
    cases vs with
    | nil =>
      cases i with
      | zero =>
        show pmGet (buildProps (pmInsert m h.toLower "-") hs []) h.toLower = _
        rw [buildProps_get_notin hs _ _ _ hne, pmGet_insert_self]
        simp
      | succ i =>
        show pmGet (buildProps (pmInsert m h.toLower "-") hs []) ((hs.getD i "").toLower) = _
        rw [ih _ [] i (by simpa using hi) hnd']
        simp
    | cons v vs =>
      cases i with
      | zero =>
        show pmGet (buildProps (pmInsert m h.toLower v) hs vs) h.toLower = _
        rw [buildProps_get_notin hs _ _ _ hne, pmGet_insert_self]
        simp
      | succ i =>
        show pmGet (buildProps (pmInsert m h.toLower v) hs vs) ((hs.getD i "").toLower) = _
        rw [ih _ vs i (by simpa using hi) hnd']
        simp

theorem parsePropsBody_ok_props (solaris : Bool) (n : Nat) (d : DatasetRec)
    (header vals : List String) (d' : DatasetRec)
    (h : parsePropsBody solaris n d header vals = .ok d') :
    d'.props = buildProps d.props header vals := by
  simp only [parsePropsBody] at h
  repeat' split at h
  all_goals
    first
    | (exfalso; simp at h; done)
    | (simp only [Except.ok.injEq] at h; subst h; rfl)

/-- C7: the property mapper requires exactly one header row and one value
row — any other row count is the Format error "output does not match what
is expected on this platform"; with two rows, header field `i` is paired
with value field `i` when present and with the sentinel `"-"` when the
value row is shorter, under lower-cased keys; and the call is rejected
with the same Format error unless the resulting table size exceeds the
minimum known-field count. -/
theorem c7_parse_props (solaris : Bool) (n : Nat) (d : DatasetRec)
    (out : List (List String)) :
    (out.length ≠ 2 → parseProps solaris n d out =
      .error "output does not match what is expected on this platform") ∧
    (∀ header vals, out = [header, vals] →
      ((buildProps d.props header vals).length ≤ n →
        parseProps solaris n d out =
          .error "output does not match what is expected on this platform") ∧
      (∀ d', parseProps solaris n d out = .ok d' →
        d'.props = buildProps d.props header vals) ∧
      ((header.map String.toLower).Nodup → ∀ i, i < header.length →
        pmGet (buildProps d.props header vals) ((header.getD i "").toLower) =
          (if i < vals.length then vals.getD i "" else "-"))) := by
  constructor
  · intro hlen
    rcases out with _ | ⟨a, _ | ⟨b, _ | ⟨c, t⟩⟩⟩
    · rfl
    · rfl
    · exact (hlen (by simp)).elim
    · rfl
  · intro header vals hout
    subst hout
    refine ⟨fun hsize => ?_, fun d' h => ?_, fun hnd i hi => ?_⟩
    · show parsePropsBody solaris n d header vals = _
      unfold parsePropsBody
      rw [if_pos hsize]
    · exact parsePropsBody_ok_props solaris n d header vals d' h
    · exact buildProps_get_idx header d.props vals i hi hnd

theorem c7_parse_props_witness :
    parseProps false 0 (freshDS "x") [] =
      .error "output does not match what is expected on this platform" := by
  exact (c7_parse_props false 0 (freshDS "x") []).1 (by decide)

/-! ### C8 -/

theorem stringMk_toList (s : String) : String.mk s.toList = s := rfl

/-- C8 counterexample: on the dedup-ratio field the code strips the final
byte before float parsing unconditionally, so the sentinel `"-"` becomes
the empty string and `strconv.ParseFloat` fails — the sentinel does not
coerce to 0.0. -/
theorem c8_counterexample :
    zpoolParseLine zpoolZero ["tank", "dedupratio", "-"] =
      .error "invalid syntax" := by
  rfl

/-- C8 (amended): the sentinel `"-"` coerces to the zero value for the
text fields (empty string) and the unsigned-integer fields (0, including
fragmentation, whose `%`-strip leaves `"-"` intact) without error; the
fragmentation field has everything from the first `%` on stripped before
unsigned parsing; the dedup-ratio field has its final character stripped
before float parsing — hence (the correction) the sentinel `"-"` on the
dedup-ratio field becomes `""` and produces a parse error instead of
0.0. -/
theorem c8_amended :
    (∀ (z : ZpoolRec) (f : String),
      zpoolParseLine z [f, "name", "-"] = .ok { z with Name := "" } ∧
      zpoolParseLine z [f, "health", "-"] = .ok { z with Health := "" } ∧
      zpoolParseLine z [f, "allocated", "-"] = .ok { z with Allocated := 0 } ∧
      zpoolParseLine z [f, "size", "-"] = .ok { z with Size := 0 } ∧
      zpoolParseLine z [f, "free", "-"] = .ok { z with Free := 0 } ∧
      zpoolParseLine z [f, "fragmentation", "-"] = .ok { z with Fragmentation := 0 } ∧
      zpoolParseLine z [f, "freeing", "-"] = .ok { z with Freeing := 0 } ∧
      zpoolParseLine z [f, "leaked", "-"] = .ok { z with Leaked := 0 } ∧
      (∀ v, zpoolParseLine z [f, "dedupratio", "-"] ≠ .ok v)) ∧
    (∀ (z : ZpoolRec) (f s : String), (∀ c ∈ s.toList, c ≠ '%') →
      zpoolParseLine z [f, "fragmentation", s ++ "%"] =
        (setUintE s).map (fun m => { z with Fragmentation := m })) ∧
    (∀ (z : ZpoolRec) (f s : String) (q : GoFloat), goParseFloat s = .ok q →
      zpoolParseLine z [f, "dedupratio", s ++ "x"] =
        .ok { z with DedupRatioQ := q }) := by
  refine ⟨fun z f => ⟨rfl, rfl, rfl, rfl, rfl, rfl, rfl, rfl, fun v h => ?_⟩,
    fun z f s hs => ?_, fun z f s q hq => ?_⟩
  · rw [show zpoolParseLine z [f, "dedupratio", "-"]
        = Except.error "invalid syntax" from rfl] at h
    exact Except.noConfusion h
  · have hdata : (s ++ "%").toList = s.toList ++ ['%'] := by
      show (s ++ "%").data = s.data ++ ['%']
      rw [String.data_append]
    have htw : ((s ++ "%").toList).takeWhile (fun c => c ≠ '%') = s.toList := by
      rw [hdata, takeWhile_append_all _ _ _ (fun c hc => by simpa using hs c hc)]
      simp
    have hfrag : zpoolParseLine z [f, "fragmentation", s ++ "%"] =
        (setUintE (String.mk (((s ++ "%").toList).takeWhile (fun c => c ≠ '%')))).map
          (fun m => { z with Fragmentation := m }) := rfl
    rw [hfrag, htw, stringMk_toList]
  · have hdata : (s ++ "x").toList.dropLast = s.toList := by
      show ((s ++ "x").data).dropLast = s.data
      rw [String.data_append]
      exact List.dropLast_concat ..
    have hded : zpoolParseLine z [f, "dedupratio", s ++ "x"] =
        (goParseFloat (String.mk ((s ++ "x").toList.dropLast))).map
          (fun q2 => { z with DedupRatioQ := q2 }) := rfl
    rw [hded, hdata, stringMk_toList, hq]
    rfl

theorem c8_amended_witness :
    zpoolParseLine zpoolZero ["t", "fragmentation", "5" ++ "%"] =
      (setUintE "5").map (fun m => { zpoolZero with Fragmentation := m }) := by
  exact c8_amended.2.1 zpoolZero "t" "5" (by decide)

/-! ### C9 -/

theorem groupHeadsAux_eq (rs : List (List String)) :
    ∀ (cur : List (List String)) (key : String),
    groupHeadsAux cur key rs =
      (cur.reverse ++ rs.takeWhile (fun r => r.headD "" = key)) ::
        groupHeads (rs.dropWhile (fun r => r.headD "" = key)) := by
  induction rs with
  | nil =>
    intro cur key
    simp [groupHeadsAux, groupHeads]
  | cons r rs ih =>
    intro cur key
    by_cases hr : r.headD "" = key
    · rw [show groupHeadsAux cur key (r :: rs) = groupHeadsAux (r :: cur) key rs from by
        simp only [groupHeadsAux]
        rw [if_pos hr]]
      rw [ih (r :: cur) key,
        List.takeWhile_cons_of_pos (by simp only [decide_eq_true_eq]; exact hr),
        List.dropWhile_cons_of_pos (by simp only [decide_eq_true_eq]; exact hr)]
      simp
    · rw [show groupHeadsAux cur key (r :: rs)
          = cur.reverse :: groupHeadsAux [r] (r.headD "") rs from by
        simp only [groupHeadsAux]
        rw [if_neg hr]]
      rw [List.takeWhile_cons_of_neg (by simp only [decide_eq_true_eq]; exact hr),
        List.dropWhile_cons_of_neg (by simp only [decide_eq_true_eq]; exact hr)]
      simp [groupHeads]

theorem groupHeads_cons (r : List String) (rs : List (List String)) :
    groupHeads (r :: rs) =
      (r :: rs.takeWhile (fun x => x.headD "" = r.headD "")) ::
        groupHeads (rs.dropWhile (fun x => x.headD "" = r.headD "")) := by
  show groupHeadsAux [r] (r.headD "") rs = _
  rw [groupHeadsAux_eq rs [r] (r.headD "")]
  rfl

theorem listLoop_eq (solaris : Bool) (n : Nat) (hdr : List String) :
    ∀ (rows : List (List String)) (key : String) (d : DatasetRec)
      (acc : List DatasetRec),
    listLoop solaris n hdr rows key (some d) acc =
      (match foldPropsE solaris n hdr d (rows.takeWhile (fun r => r.headD "" = key)) with
       | .error e => .error e
       | .ok d' =>
         match runsParse solaris n hdr
             (groupHeads (rows.dropWhile (fun r => r.headD "" = key))) with
         | .error e => .error e
         | .ok ds => .ok (acc.reverse ++ d' :: ds)) := by
  intro rows
  induction rows with
  | nil =>
    intro key d acc
    simp [listLoop, foldPropsE, groupHeads, runsParse]
  | cons r rs ih =>
    intro key d acc
    by_cases heq : key = r.headD ""
    · rw [show listLoop solaris n hdr (r :: rs) key (some d) acc
          = (match parseProps solaris n d [hdr, r] with
             | .error e => .error e
             | .ok d2 => listLoop solaris n hdr rs key (some d2) acc) from by
        simp only [listLoop]
        rw [if_pos heq]]
      rw [List.takeWhile_cons_of_pos (by simp only [decide_eq_true_eq]; exact heq.symm),
        List.dropWhile_cons_of_pos (by simp only [decide_eq_true_eq]; exact heq.symm)]
      cases hpp : parseProps solaris n d [hdr, r] with
      | error e => simp only [foldPropsE, hpp]
      | ok d2 =>
        rw [show foldPropsE solaris n hdr d
            (r :: rs.takeWhile (fun x => x.headD "" = key))
            = foldPropsE solaris n hdr d2
              (rs.takeWhile (fun x => x.headD "" = key)) from by
          simp only [foldPropsE, hpp]]
        exact ih key d2 acc
    · rw [List.takeWhile_cons_of_neg
          (by simp only [decide_eq_true_eq]; exact fun h => heq h.symm),
        List.dropWhile_cons_of_neg
          (by simp only [decide_eq_true_eq]; exact fun h => heq h.symm)]
      rw [groupHeads_cons]
      cases hpp : parseProps solaris n (freshDS (r.headD "")) [hdr, r] with
      | error e =>
        rw [show listLoop solaris n hdr (r :: rs) key (some d) acc = .error e from by
          simp only [listLoop]
          rw [if_neg heq, hpp]]
        rw [show runsParse solaris n hdr
            ((r :: rs.takeWhile (fun x => x.headD "" = r.headD "")) ::
              groupHeads (rs.dropWhile (fun x => x.headD "" = r.headD "")))
            = .error e from by
          simp only [runsParse, List.headD_cons, foldPropsE, hpp]]
        simp only [foldPropsE]
      | ok d2 =>
        rw [show listLoop solaris n hdr (r :: rs) key (some d) acc
            = listLoop solaris n hdr rs (r.headD "") (some d2) (d :: acc) from by
          simp only [listLoop]
          rw [if_neg heq, hpp]]
        rw [show runsParse solaris n hdr
            ((r :: rs.takeWhile (fun x => x.headD "" = r.headD "")) ::
              groupHeads (rs.dropWhile (fun x => x.headD "" = r.headD "")))
            = (match foldPropsE solaris n hdr d2
                  (rs.takeWhile (fun x => x.headD "" = r.headD "")) with
               | .error e => .error e
               | .ok dd =>
                 match runsParse solaris n hdr
                     (groupHeads (rs.dropWhile (fun x => x.headD "" = r.headD ""))) with
                 | .error e => .error e
                 | .ok ds => .ok (dd :: ds)) from by
          simp only [runsParse, List.headD_cons, foldPropsE, hpp]]
        rw [ih (r.headD "") d2 (d :: acc)]
        simp only [foldPropsE]
        cases foldPropsE solaris n hdr d2
            (rs.takeWhile (fun x => x.headD "" = r.headD "")) with
        | error e => rfl
        | ok dd =>
          cases runsParse solaris n hdr
              (groupHeads (rs.dropWhile (fun x => x.headD "" = r.headD ""))) with
          | error e => rfl
          | ok ds => simp

/-- C9: the listing batch parser reuses the first row as the shared header
for every value row; a new record starts exactly when a value row's
leading name field differs from the previous row's (so records correspond,
in order, to the maximal runs of equal leading fields, and for each record
boundary the header plus that boundary's row — and every further row of
its run — is fed to the property mapper, starting from a fresh dataset);
an empty batch yields an empty result with no error.  The hypothesis
reflects the tokenizer's guarantee that rows and their leading fields are
nonempty (`strings.Fields` never produces empty fields; on such rows the
Go code would dereference a nil pointer instead). -/
theorem c9_list_by_type (solaris : Bool) (n : Nat) :
    (listParse solaris n [] = .ok []) ∧
    (∀ hdr rows, (∀ r ∈ rows, r.headD "" ≠ "") →
      listParse solaris n (hdr :: rows) = listSpec solaris n hdr rows) := by
  constructor
  · rfl
  · intro hdr rows hw
    cases rows with
    | nil => rfl
    | cons r rs =>
      have hlead : r.headD "" ≠ "" := hw r (List.mem_cons_self r rs)
      show listLoop solaris n hdr (r :: rs) "" none [] =
        runsParse solaris n hdr (groupHeads (r :: rs))
      rw [groupHeads_cons]
      cases hpp : parseProps solaris n (freshDS (r.headD "")) [hdr, r] with
      | error e =>
        rw [show listLoop solaris n hdr (r :: rs) "" none [] = .error e from by
          simp only [listLoop]
          rw [if_neg (fun h => hlead h.symm), hpp]]
        rw [show runsParse solaris n hdr
            ((r :: rs.takeWhile (fun x => x.headD "" = r.headD "")) ::
              groupHeads (rs.dropWhile (fun x => x.headD "" = r.headD "")))
            = .error e from by
          simp only [runsParse, List.headD_cons, foldPropsE, hpp]]
      | ok d2 =>
        rw [show listLoop solaris n hdr (r :: rs) "" none []
            = listLoop solaris n hdr rs (r.headD "") (some d2) [] from by
          simp only [listLoop]
          rw [if_neg (fun h => hlead h.symm), hpp]]
        rw [listLoop_eq solaris n hdr rs (r.headD "") d2 []]
        rw [show runsParse solaris n hdr
            ((r :: rs.takeWhile (fun x => x.headD "" = r.headD "")) ::
              groupHeads (rs.dropWhile (fun x => x.headD "" = r.headD "")))
            = (match foldPropsE solaris n hdr d2
                  (rs.takeWhile (fun x => x.headD "" = r.headD "")) with
               | .error e => .error e
               | .ok dd =>
                 match runsParse solaris n hdr
                     (groupHeads (rs.dropWhile (fun x => x.headD "" = r.headD ""))) with
                 | .error e => .error e
                 | .ok ds => .ok (dd :: ds)) from by
          simp only [runsParse, List.headD_cons, foldPropsE, hpp]]
        cases foldPropsE solaris n hdr d2
            (rs.takeWhile (fun x => x.headD "" = r.headD "")) with
        | error e => rfl
        | ok dd =>
          cases runsParse solaris n hdr
              (groupHeads (rs.dropWhile (fun x => x.headD "" = r.headD ""))) with
          | error e => rfl
          | ok ds => simp

theorem c9_list_by_type_witness :
    listParse false 0
        [["name", "used", "avail", "volsize", "quota", "refer", "written",
          "lused", "usedds"],
         ["p", "-", "-", "-", "-", "-", "-", "-", "-"]] =
      listSpec false 0
        ["name", "used", "avail", "volsize", "quota", "refer", "written",
         "lused", "usedds"]
        [["p", "-", "-", "-", "-", "-", "-", "-", "-"]] := by
  exact (c9_list_by_type false 0).2 _ _ (by decide)

/-! ### Concrete checks mirroring the format's documented examples -/

/-- Decoding `"\\040"` yields a single space byte (octal 040 = 32). -/
theorem example_decode_octal_space :
    unescapeFilepath [92, 48, 52, 48] = .ok [32] := by rfl

/-- A diff line `M / <path> (+1)` parses to a Modified directory with
reference-count change 1 (the path byte here is `p`). -/
theorem example_modified_with_refcount :
    parseInodeChange [[77], [47], [112], [40, 43, 49, 41]] =
      .ok ⟨.Modified, .Directory, [112], [], 1⟩ := by rfl

/-- A 3-field `M / <path>` line parses with NewPath empty and
reference-count change 0. -/
theorem example_modified_plain :
    parseInodeChange [[77], [47], [112]] =
      .ok ⟨.Modified, .Directory, [112], [], 0⟩ := by rfl

/-- A `+ F <path>` line parses to a Created file. -/
theorem example_created_file :
    parseInodeChange [[43], [70], [112]] =
      .ok ⟨.Created, .File, [112], [], 0⟩ := by rfl

/-- Buffered output `"a b\nc\n"` tokenizes into two rows of
whitespace-delimited fields. -/
theorem example_tokenize :
    processStdout [97, 32, 98, 10, 99, 10] = [[[97], [98]], [[99]]] := by rfl
